import Mathlib

/-!
Shallow embedding of `src/websockets-server.js`: an in-memory presence and
message-relay hub built on socket.io.  The server keeps five process-wide maps
(`activeUsers`, `userSockets`, `communityMembers`, `channelMembers`,
`typingUsers`) and registers handlers for connection, `joinCommunity`,
`newPost`, `direct:message` and `disconnect`.

JS `Map`s are embedded as association lists (`List (κ × β)`) with
first-match lookup, in-place overwrite on `set`, append on fresh insert —
exactly the observable semantics of a JS `Map`, whose keys are unique.
JS `Set`s of socket ids are embedded as duplicate-free lists.
socket.io rooms are embedded explicitly: each connection joins its
`user:<id>` room; `joinCommunity` joins the `community:<id>` room; on
transport disconnect the socket leaves every room and the connected set
before the `disconnect` handler body runs.  An `io.emit` resolves to every
connected socket, `io.to(room)` to the room's members, `socket.to(room)` to
the room's members minus the emitting socket, and `socket.emit` /
`io.to(socketId)` to a single socket.  Every emission is recorded together
with the list of socket ids it was delivered to at the moment of the call.
Payload fields that no claim inspects (for example the full user object
inside `community:member:joined`) are elided to the identifying ids.
-/

namespace WS

/-! ### Association-map helpers (JS `Map` semantics) -/

def mget {κ β : Type} [DecidableEq κ] : List (κ × β) → κ → Option β
  | [], _ => none
  | (k', v) :: rest, k => if k' = k then some v else mget rest k

def mhas {κ β : Type} [DecidableEq κ] (m : List (κ × β)) (k : κ) : Bool :=
  (mget m k).isSome

def mset {κ β : Type} [DecidableEq κ] : List (κ × β) → κ → β → List (κ × β)
  | [], k, v => [(k, v)]
  | (k', v') :: rest, k, v =>
    if k' = k then (k, v) :: rest else (k', v') :: mset rest k v

def mdel {κ β : Type} [DecidableEq κ] : List (κ × β) → κ → List (κ × β)
  | [], _ => []
  | (k', v) :: rest, k => if k' = k then mdel rest k else (k', v) :: mdel rest k

/-- JS `Set.add`: a no-op when the element is already present. -/
def insertSet (l : List Nat) (x : Nat) : List Nat :=
  if x ∈ l then l else l ++ [x]

/-- JS `Set.delete`: removes the element when present. -/
def removeSet : List Nat → Nat → List Nat
  | [], _ => []
  | y :: rest, x => if y = x then removeSet rest x else y :: removeSet rest x

/-! ### Data model -/

/-- The identity resolved by `verifyToken` and stored in `socket.data.user`. -/
structure Identity where
  id : Nat
  name : String
  email : String
  image : String
deriving DecidableEq

/-- One entry of `activeUsers`. -/
structure ActiveUser where
  id : Nat
  name : String
  image : String
  status : String
  lastActive : Nat
  socketId : Nat
deriving DecidableEq

/-- The member snapshot stored in `communityMembers.get(communityId)`. -/
structure MemberSnapshot where
  id : Nat
  name : String
  image : String
  status : String
  lastActive : Nat
deriving DecidableEq

/-- socket.io rooms used by the server. -/
inductive Room
  | user (userId : Nat)
  | community (communityId : Nat)
  | channel (channelId : Nat)
deriving DecidableEq

/-- The event names the server emits (`channel:<id>:typing` carries its id). -/
inductive EventName
  | userStatus
  | communityMemberJoined
  | communityMembersList
  | newPost
  | directMessageNew
  | directMessageSent
  | errorEvent
  | communityMemberLeft
  | channelMemberLeft
  | channelTyping (channelId : Nat)
deriving DecidableEq

/-- Event payloads, restricted to the fields the claims inspect. -/
inductive Payload
  | userStatus (userId : Nat) (status : String) (lastActive : Nat)
  | memberJoined (communityId : Nat) (userId : Nat)
  | membersList (communityId : Nat) (members : List MemberSnapshot)
  | post (p : Nat)
  | directNew (m : Nat)
  | directSent (m : Nat)
  | errorMsg (s : String)
  | memberLeft (communityId : Nat) (userId : Nat)
  | channelLeft (channelId : Nat) (userId : Nat)
  | typing (channelId : Nat) (userId : Nat) (isTyping : Bool)
deriving DecidableEq

/-- One emission, with the socket ids it was delivered to at call time. -/
structure Emit where
  event : EventName
  payload : Payload
  recipients : List Nat
deriving DecidableEq

/-- The five server maps, the socket.io room table, and the connected-socket
table (socket id → authenticated user, i.e. `socket.data.user`). -/
structure ServerState where
  activeUsers : List (Nat × ActiveUser)
  userSockets : List (Nat × List Nat)
  communityMembers : List (Nat × List (Nat × MemberSnapshot))
  channelMembers : List (Nat × List (Nat × MemberSnapshot))
  typingUsers : List (Nat × List Nat)
  rooms : List (Room × List Nat)
  socketUser : List (Nat × Identity)
deriving DecidableEq

def initState : ServerState := ⟨[], [], [], [], [], [], []⟩

/-- All currently connected sockets: the resolution of `io.emit`. -/
def allSockets (st : ServerState) : List Nat :=
  st.socketUser.map Prod.fst

def roomMembers (rooms : List (Room × List Nat)) (r : Room) : List Nat :=
  (mget rooms r).getD []

def roomJoin (rooms : List (Room × List Nat)) (r : Room) (sid : Nat) :
    List (Room × List Nat) :=
  mset rooms r (insertSet (roomMembers rooms r) sid)

/-- The socket set registered for a user (`userSockets.get(uid)` or empty). -/
def handlesOf (st : ServerState) (uid : Nat) : List Nat :=
  (mget st.userSockets uid).getD []

/-- The membership map of one community (`communityMembers.get(cid)` or empty). -/
def membersOf (st : ServerState) (cid : Nat) : List (Nat × MemberSnapshot) :=
  (mget st.communityMembers cid).getD []

/-- The typing set of one channel (`typingUsers.get(cid)` or empty). -/
def typingSetOf (st : ServerState) (cid : Nat) : List Nat :=
  (mget st.typingUsers cid).getD []

/-! ### Handlers -/

/-- The `io.on("connection")` prologue (lines 67–98): register the user in
`activeUsers` (status `"online"`, `lastActive = now`), add the socket id to
the user's socket set, join the personal room, then `io.emit` the online
`user:status` broadcast. -/
def connect (u : Identity) (sid now : Nat) (st : ServerState) :
    ServerState × List Emit :=
  let st' : ServerState :=
    { st with
      activeUsers := mset st.activeUsers u.id
        ⟨u.id, u.name, u.image, "online", now, sid⟩
      userSockets := mset st.userSockets u.id (insertSet (handlesOf st u.id) sid)
      rooms := roomJoin st.rooms (Room.user u.id) sid
      socketUser := mset st.socketUser sid u }
  (st', [⟨EventName.userStatus, Payload.userStatus u.id "online" now, allSockets st'⟩])

/-- The `socket.on("joinCommunity")` handler (lines 101–136): join the
community room, overwrite the user's snapshot in the community's member map,
notify the other room members (`socket.to`), and send the current member
list back to the joining socket (`socket.emit`). -/
def joinCommunity (sid cid now : Nat) (st : ServerState) :
    ServerState × List Emit :=
  match mget st.socketUser sid with
  | none => (st, [])
  | some u =>
    let rooms' := roomJoin st.rooms (Room.community cid) sid
    let inner := membersOf st cid
    let inner' := mset inner u.id ⟨u.id, u.name, u.image, "online", now⟩
    let st' : ServerState :=
      { st with rooms := rooms', communityMembers := mset st.communityMembers cid inner' }
    (st',
     [⟨EventName.communityMemberJoined, Payload.memberJoined cid u.id,
       removeSet (roomMembers rooms' (Room.community cid)) sid⟩,
      ⟨EventName.communityMembersList, Payload.membersList cid (inner'.map Prod.snd),
       [sid]⟩])

/-- The `socket.on("newPost")` handler (lines 139–156): `io.emit` the post to
every connected client first, then attempt the persistence call; a failure is
only logged, so the observable outcome is independent of `ok` and no state
changes. -/
def newPost (p : Nat) (_ok : Bool) (st : ServerState) : ServerState × List Emit :=
  (st, [⟨EventName.newPost, Payload.post p, allSockets st⟩])

/-- The `socket.on("direct:message")` handler (lines 159–199): persist first;
on success emit the saved message to each socket in the recipient's socket set
(one `io.to(socketId)` per socket) and confirm to the sending socket only
(`socket.emit`); on failure emit an error to the sending socket only. -/
def directMessage (sid rid m : Nat) (ok : Bool) (st : ServerState) :
    ServerState × List Emit :=
  if ok then
    let deliveries :=
      if mhas st.userSockets rid then
        (handlesOf st rid).map
          (fun s => (⟨EventName.directMessageNew, Payload.directNew m, [s]⟩ : Emit))
      else []
    (st, deliveries ++ [⟨EventName.directMessageSent, Payload.directSent m, [sid]⟩])
  else
    (st, [⟨EventName.errorEvent, Payload.errorMsg "Failed to send message", [sid]⟩])

/-- Lines 227–237: remove the disconnected user from every community that
contains them, emitting one `community:member:left` to that community's room. -/
def communityCascade (uid : Nat) (rooms : List (Room × List Nat)) :
    List (Nat × List (Nat × MemberSnapshot)) →
    List (Nat × List (Nat × MemberSnapshot)) × List Emit
  | [] => ([], [])
  | (cid, members) :: rest =>
    let t := communityCascade uid rooms rest
    if mhas members uid then
      ((cid, mdel members uid) :: t.1,
       ⟨EventName.communityMemberLeft, Payload.memberLeft cid uid,
        roomMembers rooms (Room.community cid)⟩ :: t.2)
    else ((cid, members) :: t.1, t.2)

/-- Lines 240–250: the same cascade over `channelMembers`. -/
def channelCascade (uid : Nat) (rooms : List (Room × List Nat)) :
    List (Nat × List (Nat × MemberSnapshot)) →
    List (Nat × List (Nat × MemberSnapshot)) × List Emit
  | [] => ([], [])
  | (cid, members) :: rest =>
    let t := channelCascade uid rooms rest
    if mhas members uid then
      ((cid, mdel members uid) :: t.1,
       ⟨EventName.channelMemberLeft, Payload.channelLeft cid uid,
        roomMembers rooms (Room.channel cid)⟩ :: t.2)
    else ((cid, members) :: t.1, t.2)

/-- Lines 253–264: clear the user's typing indicators, broadcasting
`isTyping = false` to each affected channel's room. -/
def typingCascade (uid : Nat) (rooms : List (Room × List Nat)) :
    List (Nat × List Nat) → List (Nat × List Nat) × List Emit
  | [] => ([], [])
  | (cid, l) :: rest =>
    let t := typingCascade uid rooms rest
    if uid ∈ l then
      ((cid, removeSet l uid) :: t.1,
       ⟨EventName.channelTyping cid, Payload.typing cid uid false,
        roomMembers rooms (Room.channel cid)⟩ :: t.2)
    else ((cid, l) :: t.1, t.2)

/-- Transport-level close: socket.io removes the socket from every room and
from the connected set before the `disconnect` handler body runs. -/
def purgeSocket (sid : Nat) (st : ServerState) : ServerState :=
  { st with
    rooms := st.rooms.map (fun p => (p.1, removeSet p.2 sid)),
    socketUser := mdel st.socketUser sid }

/-- Lines 210–264: the user's socket set became empty — mark the user
offline with `lastActive = now` (when an `activeUsers` record exists),
`io.emit` the offline `user:status` broadcast, then cascade through
communities, channels and typing indicators. -/
def offlineCascade (uid now : Nat) (st1 : ServerState) :
    ServerState × List Emit :=
  let au :=
    match mget st1.activeUsers uid with
    | some r => mset st1.activeUsers uid
        { r with status := "offline", lastActive := now }
    | none => st1.activeUsers
  let c := communityCascade uid st1.rooms st1.communityMembers
  let ch := channelCascade uid st1.rooms st1.channelMembers
  let t := typingCascade uid st1.rooms st1.typingUsers
  ({ st1 with
      activeUsers := au, communityMembers := c.1,
      channelMembers := ch.1, typingUsers := t.1 },
   ⟨EventName.userStatus, Payload.userStatus uid "offline" now, allSockets st1⟩
     :: (c.2 ++ ch.2 ++ t.2))

/-- Line 207: `userSockets.get(userId).delete(socket.id)`. -/
def removeHandle (uid sid : Nat) (st : ServerState) : ServerState :=
  { st with userSockets := mset st.userSockets uid (removeSet (handlesOf st uid) sid) }

/-- The `socket.on("disconnect")` handler body (lines 202–267), with `uid`
the user captured by the handler's closure: delete the socket id from the
user's socket set; if the set became empty, run the offline cascade. -/
def handleDisconnect (uid sid now : Nat) (st : ServerState) :
    ServerState × List Emit :=
  if mhas st.userSockets uid then
    if (removeSet (handlesOf st uid) sid).isEmpty then
      offlineCascade uid now (removeHandle uid sid st)
    else (removeHandle uid sid st, [])
  else (st, [])

/-- A transport disconnect: the socket.io purge followed by the handler. -/
def disconnect (uid sid now : Nat) (st0 : ServerState) :
    ServerState × List Emit :=
  handleDisconnect uid sid now (purgeSocket sid st0)

/-- Modelled from the spec: the successor state of `setTyping` — the user is
added to (`isTyping = true`) or removed from (`isTyping = false`) the
channel's typing set. -/
def setTypingState (uid cid : Nat) (isTyping : Bool) (st : ServerState) :
    ServerState :=
  let cur' := if isTyping then insertSet (typingSetOf st cid) uid
              else removeSet (typingSetOf st cid) uid
  { st with typingUsers := mset st.typingUsers cid cur' }

/-- Modelled from the spec: the source registers no typing handler —
`typingUsers` is declared (line 23) and cleaned on disconnect (lines 253–264)
but nothing in `src/` ever inserts into it — so `setTyping` is modelled from
spec §4.3: it requires online status (`NotConnectedError` for a user with no
open connection), adds or removes the user from the channel's typing set, and
broadcasts the user's current typing boolean scoped to the channel. -/
def setTyping (uid cid : Nat) (isTyping : Bool) (st : ServerState) :
    Except String (ServerState × List Emit) :=
  if handlesOf st uid = [] then Except.error "NotConnectedError"
  else
    Except.ok
      (setTypingState uid cid isTyping st,
       [⟨EventName.channelTyping cid, Payload.typing cid uid isTyping,
         roomMembers st.rooms (Room.channel cid)⟩])

/-! ### The public operations and traces -/

inductive Op
  | connect (u : Identity) (sid now : Nat)
  | joinCommunity (sid cid now : Nat)
  | newPost (sid p : Nat) (ok : Bool)
  | directMessage (sid rid m : Nat) (ok : Bool)
  | disconnect (uid sid now : Nat)
deriving DecidableEq

def applyOp (o : Op) (st : ServerState) : ServerState × List Emit :=
  match o with
  | Op.connect u sid now => connect u sid now st
  | Op.joinCommunity sid cid now => joinCommunity sid cid now st
  | Op.newPost _ p ok => newPost p ok st
  | Op.directMessage sid rid m ok => directMessage sid rid m ok st
  | Op.disconnect uid sid now => disconnect uid sid now st

def runFrom : List Op → ServerState → ServerState × List Emit
  | [], st => (st, [])
  | o :: rest, st =>
    let r := applyOp o st
    let r' := runFrom rest r.1
    (r'.1, r.2 ++ r'.2)

def stateAfter (ops : List Op) : ServerState := (runFrom ops initState).1

def traceEmits (ops : List Op) : List Emit := (runFrom ops initState).2

/-! ### Lemmas about the map helpers -/

theorem mget_mset_self {κ β : Type} [DecidableEq κ] (m : List (κ × β)) (k : κ) (v : β) :
    mget (mset m k v) k = some v := by
  induction m with
  | nil => simp [mset, mget]
  | cons p rest ih =>
    obtain ⟨k', v'⟩ := p
    by_cases h : k' = k
    · simp [mset, mget, h]
    · simp [mset, mget, h, ih]

theorem mget_mset_ne {κ β : Type} [DecidableEq κ] (m : List (κ × β)) (k k' : κ)
    (v : β) (h : k' ≠ k) : mget (mset m k v) k' = mget m k' := by
  induction m with
  | nil => simp [mset, mget, Ne.symm h]
  | cons p rest ih =>
    obtain ⟨k₀, v₀⟩ := p
    by_cases hk : k₀ = k
    · subst hk
      simp [mset, mget, Ne.symm h]
    · simp only [mset, if_neg hk]
      by_cases hk' : k₀ = k'
      · simp [mget, hk']
      · simp [mget, hk', ih]

theorem length_mset_of_mhas {κ β : Type} [DecidableEq κ] (m : List (κ × β)) (k : κ)
    (v : β) (h : mhas m k = true) : (mset m k v).length = m.length := by
  induction m with
  | nil => simp [mhas, mget] at h
  | cons p rest ih =>
    obtain ⟨k₀, v₀⟩ := p
    by_cases hk : k₀ = k
    · simp [mset, hk]
    · simp only [mhas, mget, if_neg hk] at h
      simp [mset, if_neg hk, ih h]

theorem mdel_of_mget_none {κ β : Type} [DecidableEq κ] (m : List (κ × β)) (k : κ)
    (h : mget m k = none) : mdel m k = m := by
  induction m with
  | nil => rfl
  | cons p rest ih =>
    obtain ⟨k₀, v₀⟩ := p
    by_cases hk : k₀ = k
    · simp [mget, hk] at h
    · simp only [mget, if_neg hk] at h
      simp [mdel, if_neg hk, ih h]

theorem mhas_mdel_self {κ β : Type} [DecidableEq κ] (m : List (κ × β)) (k : κ) :
    mhas (mdel m k) k = false := by
  induction m with
  | nil => simp [mhas, mdel, mget]
  | cons p rest ih =>
    obtain ⟨k₀, v₀⟩ := p
    by_cases hk : k₀ = k
    · simpa [mdel, hk] using ih
    · simpa [mhas, mdel, mget, if_neg hk] using ih

theorem insertSet_ne_nil (l : List Nat) (x : Nat) : insertSet l x ≠ [] := by
  unfold insertSet
  by_cases h : x ∈ l
  · simp only [if_pos h]
    intro hl
    subst hl
    simp at h
  · simp [if_neg h]

theorem removeSet_eq_filter (l : List Nat) (x : Nat) :
    removeSet l x = l.filter (fun y => y ≠ x) := by
  induction l with
  | nil => rfl
  | cons y rest ih =>
    by_cases h : y = x
    · simp [removeSet, h, ih]
    · simp [removeSet, h, ih, List.filter_cons]

theorem not_mem_removeSet_self (l : List Nat) (x : Nat) : x ∉ removeSet l x := by
  simp [removeSet_eq_filter]

theorem removeSet_eq_self (l : List Nat) (x : Nat) (h : x ∉ l) :
    removeSet l x = l := by
  rw [removeSet_eq_filter]
  apply List.filter_eq_self.2
  intro a ha
  simp only [ne_eq, decide_eq_true_eq]
  exact fun hax => h (hax ▸ ha)

theorem ne_nil_of_removeSet_ne_nil (l : List Nat) (x : Nat)
    (h : removeSet l x ≠ []) : l ≠ [] := by
  intro hl
  subst hl
  exact h rfl

/-! ### Invariant: presence status tracks the socket set -/

/-- Invariant 1 of the spec's data model: a registered user's `activeUsers`
status is `"online"` exactly when their socket set is non-empty. -/
def StatusInv (st : ServerState) : Prop :=
  ∀ uid r, mget st.activeUsers uid = some r →
    (r.status = "online" ↔ handlesOf st uid ≠ [])

theorem statusInv_connect (st : ServerState) (u : Identity) (sid now : Nat)
    (h : StatusInv st) : StatusInv (connect u sid now st).1 := by
  intro uid r hr
  have hau : (connect u sid now st).1.activeUsers
      = mset st.activeUsers u.id ⟨u.id, u.name, u.image, "online", now, sid⟩ := rfl
  have hus : (connect u sid now st).1.userSockets
      = mset st.userSockets u.id (insertSet (handlesOf st u.id) sid) := rfl
  by_cases huid : uid = u.id
  · rw [hau, huid, mget_mset_self] at hr
    cases hr
    constructor
    · intro _
      show (mget (connect u sid now st).1.userSockets uid).getD [] ≠ []
      rw [hus, huid, mget_mset_self]
      exact insertSet_ne_nil _ _
    · intro _
      rfl
  · rw [hau, mget_mset_ne _ _ _ _ huid] at hr
    have := h uid r hr
    show r.status = "online" ↔ (mget (connect u sid now st).1.userSockets uid).getD [] ≠ []
    rw [hus, mget_mset_ne _ _ _ _ huid]
    exact this

theorem statusInv_joinCommunity (st : ServerState) (sid cid now : Nat)
    (h : StatusInv st) : StatusInv (joinCommunity sid cid now st).1 := by
  unfold joinCommunity
  cases mget st.socketUser sid with
  | none => exact h
  | some u => exact h

theorem statusInv_offlineCascade (st1 : ServerState) (uid now : Nat)
    (h : ∀ u r, u ≠ uid → mget st1.activeUsers u = some r →
      (r.status = "online" ↔ handlesOf st1 u ≠ []))
    (hempty : handlesOf st1 uid = []) :
    StatusInv (offlineCascade uid now st1).1 := by
  intro u r hr
  have hsock : handlesOf (offlineCascade uid now st1).1 u = handlesOf st1 u := rfl
  rw [hsock]
  have hau0 : (offlineCascade uid now st1).1.activeUsers
      = (match mget st1.activeUsers uid with
         | some r => mset st1.activeUsers uid
             { r with status := "offline", lastActive := now }
         | none => st1.activeUsers) := rfl
  by_cases hu : u = uid
  · subst hu
    rw [hempty]
    cases hau : mget st1.activeUsers u with
    | none =>
      rw [hau0, hau, hau] at hr
      exact absurd hr (by simp)
    | some r0 =>
      rw [hau0, hau, mget_mset_self] at hr
      cases hr
      simp
  · have hau : mget (offlineCascade uid now st1).1.activeUsers u
        = mget st1.activeUsers u := by
      rw [hau0]
      cases mget st1.activeUsers uid with
      | none => rfl
      | some r0 => exact mget_mset_ne _ _ _ _ hu
    rw [hau] at hr
    exact h u r hu hr

theorem handlesOf_removeHandle_self (st : ServerState) (uid sid : Nat) :
    handlesOf (removeHandle uid sid st) uid = removeSet (handlesOf st uid) sid := by
  show (mget (mset st.userSockets uid (removeSet (handlesOf st uid) sid)) uid).getD [] = _
  rw [mget_mset_self]
  rfl

theorem handlesOf_removeHandle_ne (st : ServerState) (uid sid u : Nat)
    (hu : u ≠ uid) : handlesOf (removeHandle uid sid st) u = handlesOf st u := by
  show (mget (mset st.userSockets uid (removeSet (handlesOf st uid) sid)) u).getD [] = _
  rw [mget_mset_ne _ _ _ _ hu]
  rfl

theorem statusInv_handleDisconnect (st : ServerState) (uid sid now : Nat)
    (h : StatusInv st) : StatusInv (handleDisconnect uid sid now st).1 := by
  unfold handleDisconnect
  by_cases hhas : mhas st.userSockets uid
  · rw [if_pos hhas]
    by_cases hempty : (removeSet (handlesOf st uid) sid).isEmpty
    · rw [if_pos hempty]
      apply statusInv_offlineCascade
      · intro u r hu hr
        rw [handlesOf_removeHandle_ne st uid sid u hu]
        exact h u r hr
      · rw [handlesOf_removeHandle_self]
        exact List.isEmpty_iff.1 hempty
    · rw [if_neg hempty]
      intro u r hr
      by_cases hu : u = uid
      · subst hu
        rw [show (removeHandle u sid st, ([] : List Emit)).1 = removeHandle u sid st
            from rfl] at hr ⊢
        rw [handlesOf_removeHandle_self]
        have hl : removeSet (handlesOf st u) sid ≠ [] := by
          intro hnil
          rw [hnil] at hempty
          exact hempty rfl
        have hold : handlesOf st u ≠ [] := ne_nil_of_removeSet_ne_nil _ _ hl
        have hiff := h u r hr
        constructor
        · intro _
          exact hl
        · intro _
          exact hiff.2 hold
      · rw [handlesOf_removeHandle_ne st uid sid u hu]
        exact h u r hr
  · rw [if_neg hhas]
    exact h

theorem statusInv_disconnect (st : ServerState) (uid sid now : Nat)
    (h : StatusInv st) : StatusInv (disconnect uid sid now st).1 :=
  statusInv_handleDisconnect (purgeSocket sid st) uid sid now h

theorem statusInv_applyOp (o : Op) (st : ServerState) (h : StatusInv st) :
    StatusInv (applyOp o st).1 := by
  cases o with
  | connect u sid now => exact statusInv_connect st u sid now h
  | joinCommunity sid cid now => exact statusInv_joinCommunity st sid cid now h
  | newPost _ _ _ => exact h
  | directMessage _ _ _ ok =>
    cases ok with
    | true => exact h
    | false => exact h
  | disconnect uid sid now => exact statusInv_disconnect st uid sid now h

theorem statusInv_runFrom (ops : List Op) (st : ServerState) (h : StatusInv st) :
    StatusInv (runFrom ops st).1 := by
  induction ops generalizing st with
  | nil => exact h
  | cons o rest ih => exact ih _ (statusInv_applyOp o st h)

theorem statusInv_init : StatusInv initState := by
  intro uid r hr
  simp [initState, mget] at hr

/-- C2: for every sequence of operations (in particular every sequence of
connects and disconnects of one user's handles), after every operation a
registered user's `activeUsers.status` is `"online"` exactly when the user's
socket set is non-empty. -/
theorem C2_status_online_iff_handles (ops : List Op) : StatusInv (stateAfter ops) :=
  statusInv_runFrom ops initState statusInv_init

/-! ### The channel-membership and typing indices are never populated -/

/-- `true` on the events the disconnect cascade would emit for channels:
`channel:member:left` and the per-channel typing broadcast. -/
def isChannelEvent (e : Emit) : Bool :=
  match e.event with
  | EventName.channelMemberLeft => true
  | EventName.channelTyping _ => true
  | _ => false

theorem communityCascade_no_channel_events (uid : Nat)
    (rooms : List (Room × List Nat)) (ms : List (Nat × List (Nat × MemberSnapshot))) :
    ((communityCascade uid rooms ms).2).filter isChannelEvent = [] := by
  induction ms with
  | nil => rfl
  | cons p rest ih =>
    obtain ⟨cid, members⟩ := p
    by_cases hm : mhas members uid
    · simp [communityCascade, hm, List.filter_cons, isChannelEvent, ih]
    · simp [communityCascade, hm, ih]

theorem deliveries_no_channel_events (l : List Nat) (m : Nat) :
    ((l.map (fun s =>
      (⟨EventName.directMessageNew, Payload.directNew m, [s]⟩ : Emit))).filter
        isChannelEvent) = [] := by
  induction l with
  | nil => rfl
  | cons s rest ih => simp [List.filter_cons, isChannelEvent, ih]

/-- No operation of the server ever inserts into `channelMembers` or
`typingUsers`. -/
def ChanInv (st : ServerState) : Prop :=
  st.channelMembers = [] ∧ st.typingUsers = []

theorem chanInv_applyOp (o : Op) (st : ServerState) (h : ChanInv st) :
    ChanInv (applyOp o st).1 ∧ (applyOp o st).2.filter isChannelEvent = [] := by
  cases o with
  | connect u sid now =>
    exact ⟨⟨h.1, h.2⟩, by simp [applyOp, connect, List.filter_cons, isChannelEvent]⟩
  | joinCommunity sid cid now =>
    show ChanInv (joinCommunity sid cid now st).1 ∧
      (joinCommunity sid cid now st).2.filter isChannelEvent = []
    unfold joinCommunity
    cases mget st.socketUser sid with
    | none => exact ⟨h, rfl⟩
    | some u =>
      exact ⟨⟨h.1, h.2⟩, by simp [List.filter_cons, isChannelEvent]⟩
  | newPost _ p ok =>
    exact ⟨h, by simp [applyOp, newPost, List.filter_cons, isChannelEvent]⟩
  | directMessage sid rid m ok =>
    cases ok with
    | true =>
      refine ⟨h, ?_⟩
      show ((directMessage sid rid m true st).2).filter isChannelEvent = []
      unfold directMessage
      by_cases hr : mhas st.userSockets rid
      · simp [hr, List.filter_append, List.filter_cons, isChannelEvent,
          deliveries_no_channel_events]
      · simp [hr, List.filter_cons, isChannelEvent]
    | false =>
      exact ⟨h, by simp [applyOp, directMessage, List.filter_cons, isChannelEvent]⟩
  | disconnect uid sid now =>
    show ChanInv (handleDisconnect uid sid now (purgeSocket sid st)).1 ∧
      (handleDisconnect uid sid now (purgeSocket sid st)).2.filter isChannelEvent = []
    have hp : ChanInv (purgeSocket sid st) := h
    unfold handleDisconnect
    by_cases hhas : mhas (purgeSocket sid st).userSockets uid
    · rw [if_pos hhas]
      by_cases hempty : (removeSet (handlesOf (purgeSocket sid st) uid) sid).isEmpty
      · rw [if_pos hempty]
        have hch : (removeHandle uid sid (purgeSocket sid st)).channelMembers = [] := hp.1
        have hty : (removeHandle uid sid (purgeSocket sid st)).typingUsers = [] := hp.2
        unfold offlineCascade
        constructor
        · constructor
          · show (channelCascade uid _ (removeHandle uid sid (purgeSocket sid st)).channelMembers).1 = []
            rw [hch]
            rfl
          · show (typingCascade uid _ (removeHandle uid sid (purgeSocket sid st)).typingUsers).1 = []
            rw [hty]
            rfl
        · show (_ :: ((communityCascade uid _ _).2
              ++ (channelCascade uid _ (removeHandle uid sid (purgeSocket sid st)).channelMembers).2
              ++ (typingCascade uid _ (removeHandle uid sid (purgeSocket sid st)).typingUsers).2)).filter
                isChannelEvent = []
          rw [hch, hty]
          simp [List.filter_cons, List.filter_append, isChannelEvent,
            communityCascade_no_channel_events, channelCascade, typingCascade]
      · rw [if_neg hempty]
        exact ⟨hp, rfl⟩
    · rw [if_neg hhas]
      exact ⟨hp, rfl⟩

theorem chanInv_runFrom (ops : List Op) (st : ServerState) (h : ChanInv st) :
    ChanInv (runFrom ops st).1 ∧ (runFrom ops st).2.filter isChannelEvent = [] := by
  induction ops generalizing st with
  | nil => exact ⟨h, rfl⟩
  | cons o rest ih =>
    have hstep := chanInv_applyOp o st h
    have htail := ih (applyOp o st).1 hstep.1
    refine ⟨htail.1, ?_⟩
    show ((applyOp o st).2 ++ (runFrom rest (applyOp o st).1).2).filter isChannelEvent = []
    rw [List.filter_append, hstep.2, htail.2]
    rfl

/-- C10: in every reachable state `channelMembers` and `typingUsers` are
empty — no operation inserts into them — and consequently no
`channel:member:left` or per-channel typing event is ever emitted along any
trace of operations. -/
theorem C10_channel_indices_empty (ops : List Op) :
    (stateAfter ops).channelMembers = [] ∧ (stateAfter ops).typingUsers = [] ∧
      (traceEmits ops).filter isChannelEvent = [] := by
  have h := chanInv_runFrom ops initState ⟨rfl, rfl⟩
  exact ⟨h.1.1, h.1.2, h.2⟩

/-! ### Concrete example states used by counterexamples and witnesses -/

def uA : Identity := ⟨1, "alice", "a@x", "imA"⟩

def uB : Identity := ⟨2, "bob", "b@x", "imB"⟩

/-- User 1 connected once with socket 10. -/
def exOneUser : ServerState := stateAfter [Op.connect uA 10 0]

/-- Users 1 and 2 each connected with two sockets (10, 11 and 20, 21). -/
def exTwoDevices : ServerState :=
  stateAfter [Op.connect uA 10 0, Op.connect uA 11 1,
              Op.connect uB 20 2, Op.connect uB 21 3]

/-! ### C1: newPost broadcasts before (and regardless of) persistence -/

/-- `true` on an emission whose payload is the post `p`. -/
def carriesPost (p : Nat) (e : Emit) : Bool :=
  match e.payload with
  | Payload.post q => q == p
  | _ => false

/-- C1 counterexample: with one connected client, a `newPost` whose
persistence call fails still produces a broadcast carrying the post,
delivered to a connection — the claimed "zero broadcast events" is false. -/
theorem C1_counterexample :
    ¬ ((newPost 7 false exOneUser).2.filter
        (fun e => carriesPost 7 e && !e.recipients.isEmpty) = []) := by
  decide

/-- C1 amended: `newPost` broadcasts the post exactly once to every connected
socket, before the persistence call and independently of its outcome, and
never changes the server state; a persistence failure is only logged. -/
theorem C1_broadcast_regardless_of_persistence (st : ServerState) (p : Nat) (ok : Bool) :
    newPost p ok st = (st, [⟨EventName.newPost, Payload.post p, allSockets st⟩]) ∧
      newPost p false st = newPost p true st :=
  ⟨rfl, rfl⟩

/-! ### C5: every connect emits the online status broadcast -/

/-- C5 counterexample: user 1 is already online with socket set `[10]`, yet a
second connect (socket 11) still emits a `user:status` online broadcast — the
claimed "no duplicate online status transition" is false. -/
theorem C5_counterexample :
    (mget exOneUser.activeUsers 1).map ActiveUser.status = some "online" ∧
    handlesOf exOneUser 1 = [10] ∧
    ¬ ((connect uA 11 1 exOneUser).2.filter
        (fun e => e.event == EventName.userStatus) = []) := by
  decide

/-- C5 amended: every successful connect (first handle or not) overwrites the
user's `activeUsers` record with status `"online"` and `lastActive = now`, and
emits exactly one `user:status` online broadcast to all connected sockets. -/
theorem C5_connect_always_broadcasts (st : ServerState) (u : Identity) (sid now : Nat) :
    mget (connect u sid now st).1.activeUsers u.id
        = some ⟨u.id, u.name, u.image, "online", now, sid⟩ ∧
    (connect u sid now st).2
        = [⟨EventName.userStatus, Payload.userStatus u.id "online" now,
            allSockets (connect u sid now st).1⟩] := by
  constructor
  · show mget (mset st.activeUsers u.id ⟨u.id, u.name, u.image, "online", now, sid⟩) u.id
        = some ⟨u.id, u.name, u.image, "online", now, sid⟩
    exact mget_mset_self _ _ _
  · rfl

/-! ### C7: persistence failure of a direct message -/

/-- C7 counterexample: socket 11 is an open handle of sender 1, but when the
persistence of a direct message sent from the sender's socket 10 fails, no
emission at all reaches socket 11 — the error is not delivered to scope
User(sender), only to the originating socket. -/
theorem C7_counterexample :
    11 ∈ handlesOf exTwoDevices 1 ∧
    ((directMessage 10 2 5 false exTwoDevices).2.filter
        (fun e => e.recipients.contains 11)) = [] := by
  decide

/-- C7 amended: on persistence failure the handler emits exactly one error
event, delivered only to the originating socket (not to the sender's other
handles), delivers nothing to the recipient, and mutates no state. -/
theorem C7_failure_error_to_origin_only (st : ServerState) (sid rid m : Nat) :
    directMessage sid rid m false st
      = (st, [⟨EventName.errorEvent, Payload.errorMsg "Failed to send message", [sid]⟩]) :=
  rfl

/-! ### C6: successful direct message delivery -/

theorem deliveries_filter_count (l : List Nat) (m s : Nat) :
    ((l.map (fun t => (⟨EventName.directMessageNew, Payload.directNew m, [t]⟩ : Emit))).filter
      (fun e => e.event == EventName.directMessageNew && e.recipients == [s])).length
    = l.count s := by
  induction l with
  | nil => rfl
  | cons a rest ih =>
    by_cases has : a = s
    · subst has
      simp only [List.map_cons, List.filter_cons, List.count_cons]
      simp [ih]
    · simp only [List.map_cons, List.filter_cons, List.count_cons]
      simp [ih, has, Ne.symm has]

/-- C6 counterexample: socket 11 is an open handle of sender 1, but after a
successful direct message sent from the sender's socket 10, no emission
reaches socket 11 — the confirmation goes only to the originating socket, so
the sender's other devices do not receive the sent message. -/
theorem C6_counterexample :
    11 ∈ handlesOf exTwoDevices 1 ∧
    ((directMessage 10 2 5 true exTwoDevices).2.filter
        (fun e => e.recipients.contains 11)) = [] := by
  decide

/-- C6 amended: on persistence success, with the recipient's socket set being
`l`, the handler state is unchanged, the emissions are one per-socket delivery
of the saved message for each socket of `l` followed by one confirmation to
the originating socket only, and (for a duplicate-free `l`) every recipient
socket receives the saved message exactly once. -/
theorem C6_success_delivery (st : ServerState) (sid rid m : Nat) (l : List Nat)
    (hl : mget st.userSockets rid = some l) :
    (directMessage sid rid m true st).1 = st ∧
    (directMessage sid rid m true st).2
      = l.map (fun s => ⟨EventName.directMessageNew, Payload.directNew m, [s]⟩)
          ++ [⟨EventName.directMessageSent, Payload.directSent m, [sid]⟩] ∧
    (∀ s, l.Nodup → s ∈ l →
      ((directMessage sid rid m true st).2.filter
        (fun e => e.event == EventName.directMessageNew
          && e.recipients == [s])).length = 1) := by
  have hmhas : mhas st.userSockets rid = true := by
    unfold mhas
    rw [hl]
    rfl
  have hh : handlesOf st rid = l := by
    unfold handlesOf
    rw [hl]
    rfl
  have h2 : (directMessage sid rid m true st).2
      = l.map (fun s => ⟨EventName.directMessageNew, Payload.directNew m, [s]⟩)
          ++ [⟨EventName.directMessageSent, Payload.directSent m, [sid]⟩] := by
    show (if mhas st.userSockets rid then
        (handlesOf st rid).map
          (fun s => (⟨EventName.directMessageNew, Payload.directNew m, [s]⟩ : Emit))
      else []) ++ [⟨EventName.directMessageSent, Payload.directSent m, [sid]⟩] = _
    rw [hmhas, hh]
    simp
  refine ⟨rfl, h2, ?_⟩
  intro s hnd hs
  rw [h2, List.filter_append]
  have hsent : (([⟨EventName.directMessageSent, Payload.directSent m, [sid]⟩] :
      List Emit).filter
        (fun e => e.event == EventName.directMessageNew
          && e.recipients == [s])) = [] := by
    simp [List.filter_cons]
  rw [hsent, List.append_nil, deliveries_filter_count]
  exact List.count_eq_one_of_mem hnd hs

/-- C6 witness: in the two-device state, user 2's sockets are `[20, 21]` and
a successful direct message from socket 10 emits one delivery per socket of
user 2 followed by one confirmation to socket 10. -/
theorem C6_witness :
    (directMessage 10 2 5 true exTwoDevices).2
      = [20, 21].map (fun s => ⟨EventName.directMessageNew, Payload.directNew 5, [s]⟩)
          ++ [⟨EventName.directMessageSent, Payload.directSent 5, [10]⟩] :=
  (C6_success_delivery exTwoDevices 10 2 5 [20, 21] (by decide)).2.1

/-! ### C9: re-joining a community is idempotent -/

theorem mhas_of_countP_eq_one {κ β : Type} [DecidableEq κ]
    (m : List (κ × β)) (k : κ)
    (h : m.countP (fun p => p.1 == k) = 1) : mhas m k = true := by
  induction m with
  | nil => simp [List.countP_nil] at h
  | cons p rest ih =>
    obtain ⟨k0, v⟩ := p
    by_cases hk : k0 = k
    · show (mget ((k0, v) :: rest) k).isSome = true
      simp [mget, hk]
    · rw [List.countP_cons] at h
      simp only [beq_iff_eq] at h
      rw [if_neg (by simpa using hk)] at h
      have := ih (by simpa using h)
      show (mget ((k0, v) :: rest) k).isSome = true
      rw [show mget ((k0, v) :: rest) k = mget rest k from by simp [mget, hk]]
      exact this

theorem countP_mset_key {κ β : Type} [DecidableEq κ]
    (m : List (κ × β)) (k : κ) (v : β) (h : mhas m k = true) :
    (mset m k v).countP (fun p => p.1 == k) = m.countP (fun p => p.1 == k) := by
  induction m with
  | nil => simp [mhas, mget] at h
  | cons p rest ih =>
    obtain ⟨k0, v0⟩ := p
    by_cases hk : k0 = k
    · subst hk
      simp [mset, List.countP_cons]
    · have hrest : mhas rest k = true := by
        simpa [mhas, mget, hk] using h
      simp only [mset, if_neg hk, List.countP_cons]
      rw [ih hrest]

/-- User 1 connected with socket 10 and already a member of community 7. -/
def exJoined : ServerState := stateAfter [Op.connect uA 10 0, Op.joinCommunity 10 7 1]

/-- C9: for an online user (socket `sid` is connected and owned by `u`)
already appearing exactly once in community `cid`'s membership map, re-joining
leaves the map's size unchanged, the user still appears exactly once, and the
stored snapshot is the refreshed one (`lastActive = now`). -/
theorem C9_rejoin_idempotent (st : ServerState) (sid cid now : Nat) (u : Identity)
    (hs : mget st.socketUser sid = some u)
    (hcount : (membersOf st cid).countP (fun p => p.1 == u.id) = 1) :
    (membersOf (joinCommunity sid cid now st).1 cid).length
        = (membersOf st cid).length ∧
    (membersOf (joinCommunity sid cid now st).1 cid).countP (fun p => p.1 == u.id) = 1 ∧
    mget (membersOf (joinCommunity sid cid now st).1 cid) u.id
        = some ⟨u.id, u.name, u.image, "online", now⟩ := by
  have hmem : mhas (membersOf st cid) u.id = true := mhas_of_countP_eq_one _ _ hcount
  have hres : membersOf (joinCommunity sid cid now st).1 cid
      = mset (membersOf st cid) u.id ⟨u.id, u.name, u.image, "online", now⟩ := by
    unfold joinCommunity
    rw [hs]
    show (mget (mset st.communityMembers cid
        (mset (membersOf st cid) u.id ⟨u.id, u.name, u.image, "online", now⟩)) cid).getD []
      = _
    rw [mget_mset_self]
    rfl
  rw [hres]
  refine ⟨length_mset_of_mhas _ _ _ hmem, ?_, mget_mset_self _ _ _⟩
  rw [countP_mset_key _ _ _ hmem]
  exact hcount

/-- C9 witness: re-joining community 7 in `exJoined` keeps its member map at
size one, with user 1's single refreshed snapshot. -/
theorem C9_witness :
    (membersOf (joinCommunity 10 7 2 exJoined).1 7).length
        = (membersOf exJoined 7).length ∧
    (membersOf (joinCommunity 10 7 2 exJoined).1 7).countP (fun p => p.1 == 1) = 1 ∧
    mget (membersOf (joinCommunity 10 7 2 exJoined).1 7) 1
        = some ⟨1, "alice", "imA", "online", 2⟩ :=
  C9_rejoin_idempotent exJoined 10 7 2 uA (by decide) (by decide)

/-! ### C3: the disconnect cascade over community memberships -/

/-- `true` on an emission whose payload is a community member-left for `cid`. -/
def leftEventFor (cid : Nat) (e : Emit) : Bool :=
  match e.payload with
  | Payload.memberLeft c _ => c == cid
  | _ => false

theorem mget_eq_none_of_not_mem_keys {κ β : Type} [DecidableEq κ]
    (m : List (κ × β)) (k : κ) (h : k ∉ m.map Prod.fst) : mget m k = none := by
  induction m with
  | nil => rfl
  | cons p rest ih =>
    obtain ⟨k0, v⟩ := p
    simp only [List.map_cons, List.mem_cons, not_or] at h
    rw [show mget ((k0, v) :: rest) k = if k0 = k then some v else mget rest k from rfl,
      if_neg (fun hk => h.1 hk.symm), ih h.2]

theorem communityCascade_mget (uid : Nat) (rooms : List (Room × List Nat))
    (ms : List (Nat × List (Nat × MemberSnapshot))) (cid : Nat) :
    mget (communityCascade uid rooms ms).1 cid
      = (mget ms cid).map (fun v => if mhas v uid then mdel v uid else v) := by
  induction ms with
  | nil => rfl
  | cons p rest ih =>
    obtain ⟨k, members⟩ := p
    by_cases hm : mhas members uid
    · by_cases hk : k = cid
      · subst hk
        simp [communityCascade, hm, mget]
      · simp [communityCascade, hm, mget, hk, ih]
    · by_cases hk : k = cid
      · subst hk
        simp [communityCascade, hm, mget]
      · simp [communityCascade, hm, mget, hk, ih]

theorem communityCascade_cons_mem (uid : Nat) (rooms : List (Room × List Nat))
    (k : Nat) (members : List (Nat × MemberSnapshot))
    (rest : List (Nat × List (Nat × MemberSnapshot)))
    (hm : mhas members uid = true) :
    communityCascade uid rooms ((k, members) :: rest)
      = ((k, mdel members uid) :: (communityCascade uid rooms rest).1,
         ⟨EventName.communityMemberLeft, Payload.memberLeft k uid,
          roomMembers rooms (Room.community k)⟩ :: (communityCascade uid rooms rest).2) := by
  simp [communityCascade, hm]

theorem communityCascade_cons_not_mem (uid : Nat) (rooms : List (Room × List Nat))
    (k : Nat) (members : List (Nat × MemberSnapshot))
    (rest : List (Nat × List (Nat × MemberSnapshot)))
    (hm : mhas members uid = false) :
    communityCascade uid rooms ((k, members) :: rest)
      = ((k, members) :: (communityCascade uid rooms rest).1,
         (communityCascade uid rooms rest).2) := by
  simp [communityCascade, hm]

theorem communityCascade_filter (uid : Nat) (rooms : List (Room × List Nat))
    (ms : List (Nat × List (Nat × MemberSnapshot))) (cid : Nat)
    (hnd : (ms.map Prod.fst).Nodup) :
    ((communityCascade uid rooms ms).2).filter (leftEventFor cid)
      = (match mget ms cid with
         | some v =>
           if mhas v uid then
             [⟨EventName.communityMemberLeft, Payload.memberLeft cid uid,
               roomMembers rooms (Room.community cid)⟩]
           else []
         | none => []) := by
  induction ms with
  | nil => rfl
  | cons p rest ih =>
    obtain ⟨k, members⟩ := p
    simp only [List.map_cons, List.nodup_cons] at hnd
    have ihr := ih hnd.2
    by_cases hk : k = cid
    · subst hk
      have hnone : mget rest k = none := mget_eq_none_of_not_mem_keys rest k hnd.1
      rw [hnone] at ihr
      by_cases hm : mhas members uid
      · rw [communityCascade_cons_mem uid rooms k members rest hm]
        rw [List.filter_cons]
        rw [show leftEventFor k
            (⟨EventName.communityMemberLeft, Payload.memberLeft k uid,
              roomMembers rooms (Room.community k)⟩ : Emit) = true from by
          simp [leftEventFor]]
        rw [if_pos rfl, ihr]
        rw [show mget ((k, members) :: rest) k = some members from by simp [mget]]
        simp [hm]
      · have hm' : mhas members uid = false := by simpa using hm
        rw [communityCascade_cons_not_mem uid rooms k members rest hm', ihr]
        rw [show mget ((k, members) :: rest) k = some members from by simp [mget]]
        simp [hm']
    · by_cases hm : mhas members uid
      · rw [communityCascade_cons_mem uid rooms k members rest hm]
        rw [List.filter_cons]
        rw [show leftEventFor cid
            (⟨EventName.communityMemberLeft, Payload.memberLeft k uid,
              roomMembers rooms (Room.community k)⟩ : Emit) = (k == cid) from rfl]
        rw [show ((k == cid) : Bool) = false from by simp [hk]]
        rw [if_neg (by simp), ihr]
        rw [show mget ((k, members) :: rest) cid = mget rest cid from by
          simp [mget, hk]]
      · have hm' : mhas members uid = false := by simpa using hm
        rw [communityCascade_cons_not_mem uid rooms k members rest hm', ihr]
        rw [show mget ((k, members) :: rest) cid = mget rest cid from by
          simp [mget, hk]]

theorem channelCascade_no_left (uid : Nat) (rooms : List (Room × List Nat))
    (ms : List (Nat × List (Nat × MemberSnapshot))) (cid : Nat) :
    ((channelCascade uid rooms ms).2).filter (leftEventFor cid) = [] := by
  induction ms with
  | nil => rfl
  | cons p rest ih =>
    obtain ⟨k, members⟩ := p
    by_cases hm : mhas members uid
    · simp [channelCascade, hm, List.filter_cons, leftEventFor, ih]
    · simp [channelCascade, hm, ih]

theorem typingCascade_no_left (uid : Nat) (rooms : List (Room × List Nat))
    (ts : List (Nat × List Nat)) (cid : Nat) :
    ((typingCascade uid rooms ts).2).filter (leftEventFor cid) = [] := by
  induction ts with
  | nil => rfl
  | cons p rest ih =>
    obtain ⟨k, l⟩ := p
    by_cases hm : uid ∈ l
    · simp [typingCascade, hm, List.filter_cons, leftEventFor, ih]
    · simp [typingCascade, hm, ih]

/-- When `sid` is the user's only socket, the disconnect runs the full
offline cascade on the purged state. -/
theorem disconnect_eq_cascade_of_last (st : ServerState) (uid sid now : Nat)
    (hset : mget st.userSockets uid = some [sid]) :
    disconnect uid sid now st
      = offlineCascade uid now (removeHandle uid sid (purgeSocket sid st)) := by
  have hmh : mhas (purgeSocket sid st).userSockets uid = true := by
    show (mget st.userSockets uid).isSome = true
    rw [hset]
    rfl
  have hrs : removeSet (handlesOf (purgeSocket sid st) uid) sid = [] := by
    show removeSet ((mget st.userSockets uid).getD []) sid = []
    rw [hset]
    simp [removeSet]
  unfold disconnect handleDisconnect
  rw [if_pos hmh, hrs]
  rfl

/-- C3: when socket `sid` is the only remaining handle of `uid` and the user
is a member of communities `g1` and `g2` (the outer community map having
duplicate-free keys, as a JS Map does), the disconnect removes the user from
both membership maps, emits exactly one member-left event per such group —
delivered to that community room's remaining members after the departing
socket has left — and emits zero member-left events for every community the
user was not a member of. -/
theorem C3_last_disconnect_cascade (st : ServerState) (uid sid now g1 g2 : Nat)
    (hset : mget st.userSockets uid = some [sid])
    (hnd : (st.communityMembers.map Prod.fst).Nodup)
    (h1 : mhas (membersOf st g1) uid = true)
    (h2 : mhas (membersOf st g2) uid = true) :
    mhas (membersOf (disconnect uid sid now st).1 g1) uid = false ∧
    mhas (membersOf (disconnect uid sid now st).1 g2) uid = false ∧
    (disconnect uid sid now st).2.filter (leftEventFor g1)
      = [⟨EventName.communityMemberLeft, Payload.memberLeft g1 uid,
          roomMembers (purgeSocket sid st).rooms (Room.community g1)⟩] ∧
    (disconnect uid sid now st).2.filter (leftEventFor g2)
      = [⟨EventName.communityMemberLeft, Payload.memberLeft g2 uid,
          roomMembers (purgeSocket sid st).rooms (Room.community g2)⟩] ∧
    ∀ cid, mhas (membersOf st cid) uid = false →
      (disconnect uid sid now st).2.filter (leftEventFor cid) = [] := by
  have hres := disconnect_eq_cascade_of_last st uid sid now hset
  have hcm : (removeHandle uid sid (purgeSocket sid st)).communityMembers
      = st.communityMembers := rfl
  have hrooms : (removeHandle uid sid (purgeSocket sid st)).rooms
      = (purgeSocket sid st).rooms := rfl
  -- the community part of the final state
  have hmgetC : ∀ cid, mget (disconnect uid sid now st).1.communityMembers cid
      = (mget st.communityMembers cid).map
          (fun v => if mhas v uid then mdel v uid else v) := by
    intro cid
    rw [hres]
    show mget (communityCascade uid (removeHandle uid sid (purgeSocket sid st)).rooms
        (removeHandle uid sid (purgeSocket sid st)).communityMembers).1 cid = _
    rw [hcm, hrooms, communityCascade_mget]
  -- the emissions filter
  have hfilter : ∀ cid, (disconnect uid sid now st).2.filter (leftEventFor cid)
      = (match mget st.communityMembers cid with
         | some v =>
           if mhas v uid then
             [⟨EventName.communityMemberLeft, Payload.memberLeft cid uid,
               roomMembers (purgeSocket sid st).rooms (Room.community cid)⟩]
           else []
         | none => []) := by
    intro cid
    rw [hres]
    show (⟨EventName.userStatus, Payload.userStatus uid "offline" now,
          allSockets (removeHandle uid sid (purgeSocket sid st))⟩
        :: ((communityCascade uid (removeHandle uid sid (purgeSocket sid st)).rooms
              (removeHandle uid sid (purgeSocket sid st)).communityMembers).2
            ++ (channelCascade uid (removeHandle uid sid (purgeSocket sid st)).rooms
                  (removeHandle uid sid (purgeSocket sid st)).channelMembers).2
            ++ (typingCascade uid (removeHandle uid sid (purgeSocket sid st)).rooms
                  (removeHandle uid sid (purgeSocket sid st)).typingUsers).2)).filter
        (leftEventFor cid) = _
    rw [List.filter_cons]
    rw [show leftEventFor cid
        (⟨EventName.userStatus, Payload.userStatus uid "offline" now,
          allSockets (removeHandle uid sid (purgeSocket sid st))⟩ : Emit) = false from rfl]
    simp only [Bool.false_eq_true, if_false]
    rw [List.filter_append, List.filter_append]
    rw [channelCascade_no_left, typingCascade_no_left, List.append_nil, List.append_nil]
    rw [hcm, hrooms, communityCascade_filter uid _ _ cid hnd]
  -- membership removal for a group containing the user
  have hgone : ∀ cid, mhas (membersOf st cid) uid = true →
      mhas (membersOf (disconnect uid sid now st).1 cid) uid = false := by
    intro cid hmem
    cases hmg : mget st.communityMembers cid with
    | none =>
      rw [show membersOf st cid = (mget st.communityMembers cid).getD [] from rfl,
        hmg] at hmem
      exact absurd hmem (by simp [mhas, mget])
    | some v =>
      have hv : mhas v uid = true := by
        rw [show membersOf st cid = (mget st.communityMembers cid).getD [] from rfl,
          hmg] at hmem
        exact hmem
      rw [show membersOf (disconnect uid sid now st).1 cid
          = (mget (disconnect uid sid now st).1.communityMembers cid).getD [] from rfl,
        hmgetC, hmg]
      show mhas (if mhas v uid then mdel v uid else v) uid = false
      rw [if_pos hv]
      exact mhas_mdel_self v uid
  refine ⟨hgone g1 h1, hgone g2 h2, ?_, ?_, ?_⟩
  · rw [hfilter g1]
    cases hmg : mget st.communityMembers g1 with
    | none =>
      rw [show membersOf st g1 = (mget st.communityMembers g1).getD [] from rfl,
        hmg] at h1
      exact absurd h1 (by simp [mhas, mget])
    | some v =>
      have hv : mhas v uid = true := by
        rw [show membersOf st g1 = (mget st.communityMembers g1).getD [] from rfl,
          hmg] at h1
        exact h1
      simp [hv]
  · rw [hfilter g2]
    cases hmg : mget st.communityMembers g2 with
    | none =>
      rw [show membersOf st g2 = (mget st.communityMembers g2).getD [] from rfl,
        hmg] at h2
      exact absurd h2 (by simp [mhas, mget])
    | some v =>
      have hv : mhas v uid = true := by
        rw [show membersOf st g2 = (mget st.communityMembers g2).getD [] from rfl,
          hmg] at h2
        exact h2
      simp [hv]
  · intro cid hno
    rw [hfilter cid]
    cases hmg : mget st.communityMembers cid with
    | none => rfl
    | some v =>
      have hv : mhas v uid = false := by
        rw [show membersOf st cid = (mget st.communityMembers cid).getD [] from rfl,
          hmg] at hno
        exact hno
      simp [hv]

/-- User 1 (socket 10) is a member of communities 7 and 8; user 2 (socket 20)
is a member of community 7. -/
def exGroups : ServerState :=
  stateAfter [Op.connect uA 10 0, Op.connect uB 20 1,
              Op.joinCommunity 10 7 2, Op.joinCommunity 10 8 3,
              Op.joinCommunity 20 7 4]

/-- C3 witness: disconnecting user 1's only socket removes the user from both
communities and the member-left event for community 7 is delivered to the
room's remaining member (socket 20). -/
theorem C3_witness :
    mhas (membersOf (disconnect 1 10 9 exGroups).1 7) 1 = false ∧
    mhas (membersOf (disconnect 1 10 9 exGroups).1 8) 1 = false ∧
    (disconnect 1 10 9 exGroups).2.filter (leftEventFor 7)
      = [⟨EventName.communityMemberLeft, Payload.memberLeft 7 1,
          roomMembers (purgeSocket 10 exGroups).rooms (Room.community 7)⟩] := by
  have h := C3_last_disconnect_cascade exGroups 1 10 9 7 8
    (by decide) (by decide) (by decide) (by decide)
  exact ⟨h.1, h.2.1, h.2.2.1⟩

/-! ### C4: a second disconnect of an already-removed handle -/

theorem mset_eq_self_of_mget {κ β : Type} [DecidableEq κ]
    (m : List (κ × β)) (k : κ) (v : β) (h : mget m k = some v) : mset m k v = m := by
  induction m with
  | nil => simp [mget] at h
  | cons p rest ih =>
    obtain ⟨k0, v0⟩ := p
    by_cases hk : k0 = k
    · subst hk
      have : v0 = v := by simpa [mget] using h
      simp [mset, this]
    · have hrest : mget rest k = some v := by simpa [mget, hk] using h
      simp [mset, hk, ih hrest]

theorem map_removeSet_eq_self (rs : List (Room × List Nat)) (sid : Nat)
    (h : ∀ p ∈ rs, sid ∉ p.2) :
    rs.map (fun p => (p.1, removeSet p.2 sid)) = rs := by
  induction rs with
  | nil => rfl
  | cons p rest ih =>
    rw [List.map_cons, removeSet_eq_self _ _ (h p (List.mem_cons_self p rest)),
      ih (fun q hq => h q (List.mem_cons_of_mem p hq))]

theorem purgeSocket_eq_self (st : ServerState) (sid : Nat)
    (hsu : mget st.socketUser sid = none)
    (hrm : ∀ p ∈ st.rooms, sid ∉ p.2) :
    purgeSocket sid st = st := by
  unfold purgeSocket
  rw [mdel_of_mget_none _ _ hsu, map_removeSet_eq_self st.rooms sid hrm]

theorem communityCascade_of_absent (uid : Nat) (rooms : List (Room × List Nat))
    (ms : List (Nat × List (Nat × MemberSnapshot)))
    (h : ∀ p ∈ ms, mhas p.2 uid = false) :
    communityCascade uid rooms ms = (ms, []) := by
  induction ms with
  | nil => rfl
  | cons p rest ih =>
    obtain ⟨k, members⟩ := p
    have hm : mhas members uid = false := h (k, members) (List.mem_cons_self _ _)
    rw [communityCascade_cons_not_mem uid rooms k members rest hm,
      ih (fun q hq => h q (List.mem_cons_of_mem _ hq))]

theorem channelCascade_of_absent (uid : Nat) (rooms : List (Room × List Nat))
    (ms : List (Nat × List (Nat × MemberSnapshot)))
    (h : ∀ p ∈ ms, mhas p.2 uid = false) :
    channelCascade uid rooms ms = (ms, []) := by
  induction ms with
  | nil => rfl
  | cons p rest ih =>
    obtain ⟨k, members⟩ := p
    have hm : mhas members uid = false := h (k, members) (List.mem_cons_self _ _)
    rw [show channelCascade uid rooms ((k, members) :: rest)
        = ((k, members) :: (channelCascade uid rooms rest).1,
           (channelCascade uid rooms rest).2) from by simp [channelCascade, hm],
      ih (fun q hq => h q (List.mem_cons_of_mem _ hq))]

theorem typingCascade_of_absent (uid : Nat) (rooms : List (Room × List Nat))
    (ts : List (Nat × List Nat)) (h : ∀ p ∈ ts, uid ∉ p.2) :
    typingCascade uid rooms ts = (ts, []) := by
  induction ts with
  | nil => rfl
  | cons p rest ih =>
    obtain ⟨k, l⟩ := p
    have hm : uid ∉ l := h (k, l) (List.mem_cons_self _ _)
    rw [show typingCascade uid rooms ((k, l) :: rest)
        = ((k, l) :: (typingCascade uid rooms rest).1,
           (typingCascade uid rooms rest).2) from by simp [typingCascade, hm],
      ih (fun q hq => h q (List.mem_cons_of_mem _ hq))]

/-- C4 amended: a second disconnect call for a handle that has already been
removed (the socket is deregistered and out of every room, the user's socket
set is already empty, and the user appears in no membership or typing index)
is not a no-op: it re-runs the offline cascade, refreshing the user's
`lastActive` to `now` and re-emitting the offline `user:status` broadcast,
while leaving the socket set, memberships and typing state unchanged.  (When
the user still has other open handles a second disconnect is a true no-op.) -/
theorem C4_second_disconnect_repeats_cascade
    (st : ServerState) (uid sid now : Nat) (r : ActiveUser)
    (hsu : mget st.socketUser sid = none)
    (hrm : ∀ p ∈ st.rooms, sid ∉ p.2)
    (hset : mget st.userSockets uid = some [])
    (hau : mget st.activeUsers uid = some r)
    (hcm : ∀ p ∈ st.communityMembers, mhas p.2 uid = false)
    (hch : ∀ p ∈ st.channelMembers, mhas p.2 uid = false)
    (ht : ∀ p ∈ st.typingUsers, uid ∉ p.2) :
    disconnect uid sid now st
      = ({ st with activeUsers := mset st.activeUsers uid { r with status := "offline", lastActive := now } },
         [⟨EventName.userStatus, Payload.userStatus uid "offline" now,
           allSockets st⟩]) := by
  have hp : purgeSocket sid st = st := purgeSocket_eq_self st sid hsu hrm
  have hmh : mhas st.userSockets uid = true := by
    unfold mhas
    rw [hset]
    rfl
  have hh : handlesOf st uid = [] := by
    unfold handlesOf
    rw [hset]
    rfl
  have hR : removeHandle uid sid st = st := by
    unfold removeHandle
    rw [hh]
    show { st with userSockets := mset st.userSockets uid ([] : List Nat) } = st
    rw [mset_eq_self_of_mget _ _ _ hset]
  unfold disconnect handleDisconnect
  rw [hp, if_pos hmh, hh]
  rw [show removeSet ([] : List Nat) sid = [] from rfl]
  rw [if_pos (show (([] : List Nat)).isEmpty = true from rfl)]
  rw [hR]
  unfold offlineCascade
  rw [hau, communityCascade_of_absent uid st.rooms st.communityMembers hcm,
    channelCascade_of_absent uid st.rooms st.channelMembers hch,
    typingCascade_of_absent uid st.rooms st.typingUsers ht]
  rfl

/-- User 1 connected with socket 10 at time 0 and disconnected it at time 1. -/
def exAfterDisc : ServerState :=
  stateAfter [Op.connect uA 10 0, Op.disconnect 1 10 1]

/-- C4 counterexample: a second disconnect of the already-removed socket 10 is
not a no-op — it emits events (the repeated offline broadcast) and changes the
state (the user's `lastActive`). -/
theorem C4_counterexample :
    (disconnect 1 10 5 exAfterDisc).2 ≠ [] ∧
    (disconnect 1 10 5 exAfterDisc).1 ≠ exAfterDisc := by
  decide

/-- C4 witness: the second disconnect in the concrete two-step trace re-runs
the offline cascade, refreshing `lastActive` and re-broadcasting offline. -/
theorem C4_witness :
    disconnect 1 10 5 exAfterDisc
      = ({ exAfterDisc with activeUsers := mset exAfterDisc.activeUsers 1 ⟨1, "alice", "imA", "offline", 5, 10⟩ },
         [⟨EventName.userStatus, Payload.userStatus 1 "offline" 5,
           allSockets exAfterDisc⟩]) :=
  C4_second_disconnect_repeats_cascade exAfterDisc 1 10 5
    ⟨1, "alice", "imA", "offline", 1, 10⟩
    (by decide) (by decide) (by decide) (by decide) (by decide) (by decide) (by decide)

/-! ### C8: setTyping (modelled from the spec) -/

theorem mem_insertSet_self (l : List Nat) (x : Nat) : x ∈ insertSet l x := by
  unfold insertSet
  by_cases h : x ∈ l
  · rwa [if_pos h]
  · rw [if_neg h]
    exact List.mem_append_right l (List.mem_singleton_self x)

/-- C8: a `setTyping` invocation by a user with at least one open connection
adds (`b = true`) or removes (`b = false`) the user in the channel's typing
set, leaves every other channel's typing set and all other registries
unchanged, and broadcasts the user's current typing boolean scoped to the
channel's room; a user with no open connection is rejected with
`NotConnectedError`. -/
theorem C8_setTyping_spec (st : ServerState) (uid cid : Nat) (b : Bool) :
    (handlesOf st uid = [] →
      setTyping uid cid b st = Except.error "NotConnectedError") ∧
    (handlesOf st uid ≠ [] →
      setTyping uid cid b st
        = Except.ok (setTypingState uid cid b st,
            [⟨EventName.channelTyping cid, Payload.typing cid uid b,
              roomMembers st.rooms (Room.channel cid)⟩]) ∧
      (uid ∈ typingSetOf (setTypingState uid cid b st) cid ↔ b = true) ∧
      (∀ c, c ≠ cid →
        typingSetOf (setTypingState uid cid b st) c = typingSetOf st c) ∧
      (setTypingState uid cid b st).activeUsers = st.activeUsers ∧
      (setTypingState uid cid b st).userSockets = st.userSockets ∧
      (setTypingState uid cid b st).communityMembers = st.communityMembers) := by
  have hset : typingSetOf (setTypingState uid cid b st) cid
      = (if b then insertSet (typingSetOf st cid) uid
         else removeSet (typingSetOf st cid) uid) := by
    show (mget (mset st.typingUsers cid
        (if b then insertSet (typingSetOf st cid) uid
         else removeSet (typingSetOf st cid) uid)) cid).getD []
      = (if b then insertSet (typingSetOf st cid) uid
         else removeSet (typingSetOf st cid) uid)
    rw [mget_mset_self]
    rfl
  constructor
  · intro h
    unfold setTyping
    rw [if_pos h]
  · intro h
    refine ⟨?_, ?_, ?_, rfl, rfl, rfl⟩
    · unfold setTyping
      rw [if_neg h]
    · rw [hset]
      cases b with
      | true =>
        exact iff_of_true (mem_insertSet_self _ _) rfl
      | false =>
        exact iff_of_false (not_mem_removeSet_self _ _) (by decide)
    · intro c hc
      show (mget (mset st.typingUsers cid
          (if b then insertSet (typingSetOf st cid) uid
           else removeSet (typingSetOf st cid) uid)) c).getD []
        = typingSetOf st c
      rw [mget_mset_ne _ _ _ _ hc]
      rfl

/-- C8 witness: user 1 is online in `exOneUser`; `setTyping 1 5 true` succeeds,
stores user 1 in channel 5's typing set and broadcasts the typing state. -/
theorem C8_witness :
    setTyping 1 5 true exOneUser
      = Except.ok (setTypingState 1 5 true exOneUser,
          [⟨EventName.channelTyping 5, Payload.typing 5 1 true,
            roomMembers exOneUser.rooms (Room.channel 5)⟩]) ∧
    (1 ∈ typingSetOf (setTypingState 1 5 true exOneUser) 5 ↔ true = true) := by
  have h := (C8_setTyping_spec exOneUser 1 5 true).2 (by decide)
  exact ⟨h.1, h.2.1⟩

end WS
